import Mathlib

/-!
Shallow embedding of the Smart Tool Routing controller
(`src/controllers/toolController.ts`): the `searchTools` request handler
(query validation, smart-routing feature gate, effective limit and
threshold computation, similarity-search invocation, ranking, grouping,
aggregation, metadata) and the `callTool` request handler (toolName
validation, dispatch via `handleCallToolRequest`, result normalization).

External collaborators (`searchToolsByVector`, `handleCallToolRequest`,
`getSmartRoutingConfig`) are passed in as parameters: the similarity
search and the dispatch handler as functions (`Except` models a thrown
JavaScript error), the smart-routing flag as a `Bool`.

Request bodies arrive as parsed JSON, so field values are modelled by
`JSValue` below (JSON cannot carry `NaN` or `undefined`; `undefined`
stands for an absent field, which is what object destructuring sees).
JavaScript numbers are modelled as rationals; `parseInt(String(n))`
truncates toward zero in the plain-decimal range and, where `String`
switches to exponential notation (magnitudes at least 1e21, or nonzero
magnitudes below 1e-6), reads only the mantissa's leading digit with the
sign.  String `length` is modelled as code-point
count (it coincides with JavaScript UTF-16 length on the ASCII data the
spec discusses).  Array-valued request fields are not modelled (their
`String()` rendering depends recursively on the elements).
-/

/-- JSON-expressible value of a request-body field. The `undefined`
constructor represents an absent field as seen by destructuring. -/
inductive JSValue where
  | undefined
  | null
  | bool (b : Bool)
  | num (q : ℚ)
  | str (s : String)
  | obj (fields : List (String × JSValue))

/-- JavaScript truthiness of a `JSValue` (`!x` is its negation): `undefined`,
`null`, `false`, `0` and the empty string are falsy, everything else truthy. -/
def truthy : JSValue → Bool
  | .undefined => false
  | .null => false
  | .bool b => b
  | .num q => decide (q ≠ 0)
  | .str s => decide (s ≠ "")
  | .obj _ => true

/-- The check `typeof x === 'string'`. -/
def isStringValue : JSValue → Bool
  | .str _ => true
  | _ => false

/-- The check `typeof x === 'number'` (JSON numbers only; JSON has no NaN). -/
def isNumberValue : JSValue → Bool
  | .num _ => true
  | _ => false

/-- Value of a decimal digit character, `none` for any other character. -/
def digitVal (c : Char) : Option ℕ :=
  if '0' ≤ c ∧ c ≤ '9' then some (c.toNat - '0'.toNat) else none

/-- Value of a hexadecimal digit character, `none` for any other character. -/
def hexDigitVal (c : Char) : Option ℕ :=
  if '0' ≤ c ∧ c ≤ '9' then some (c.toNat - '0'.toNat)
  else if 'a' ≤ c ∧ c ≤ 'f' then some (c.toNat - 'a'.toNat + 10)
  else if 'A' ≤ c ∧ c ≤ 'F' then some (c.toNat - 'A'.toNat + 10)
  else none

/-- Accumulate digits under `dv` in the given base, stopping at the first
non-digit, exactly as `parseInt` consumes its input. -/
def parseDigitsAux (dv : Char → Option ℕ) (base : ℕ) : List Char → ℕ → ℕ
  | [], acc => acc
  | c :: rest, acc =>
    match dv c with
    | some d => parseDigitsAux dv base rest (acc * base + d)
    | none => acc

/-- Parse a nonempty run of digits under `dv`; `none` when the first
character is not a digit (`parseInt` then yields `NaN`). -/
def parseDigits (dv : Char → Option ℕ) (base : ℕ) : List Char → Option ℕ
  | [] => none
  | c :: rest =>
    match dv c with
    | some d => some (parseDigitsAux dv base rest d)
    | none => none

/-- JavaScript whitespace characters skipped by `parseInt` (the common
ASCII ones; exotic Unicode space characters are not modelled). -/
def isJsSpace (c : Char) : Bool :=
  c = ' ' ∨ c = '\t' ∨ c = '\n' ∨ c = '\r'

/-- JavaScript `parseInt` on a character list: skip leading whitespace,
read an optional sign, auto-detect a `0x`/`0X` radix-16 prefix, then
consume leading digits; `none` models `NaN`. -/
def jsParseIntChars (l : List Char) : Option ℤ :=
  let l₁ := l.dropWhile isJsSpace
  let signAndRest : ℤ × List Char :=
    match l₁ with
    | '-' :: rest => (-1, rest)
    | '+' :: rest => (1, rest)
    | _ => (1, l₁)
  let sign := signAndRest.1
  let body := signAndRest.2
  match body with
  | '0' :: x :: rest =>
    if x = 'x' ∨ x = 'X' then
      (parseDigits hexDigitVal 16 rest).map (fun n => sign * (n : ℤ))
    else
      (parseDigits digitVal 10 body).map (fun n => sign * (n : ℤ))
  | _ => (parseDigits digitVal 10 body).map (fun n => sign * (n : ℤ))

/-- Truncation toward zero, which is what `parseInt(String(q))` computes on a
JavaScript number rendered in plain decimal notation. -/
def ratTrunc (q : ℚ) : ℤ := if 0 ≤ q then ⌊q⌋ else ⌈q⌉

/-- Magnitude from which JavaScript `String(n)` switches to exponential
notation upward: 10^21 (ECMA-262 Number::toString, case n > 21). -/
def jsExpCutoff : ℚ := mkRat 1000000000000000000000 1

/-- Magnitude below which JavaScript `String(n)` switches to exponential
notation downward: 10^-6 (ECMA-262 Number::toString, case n ≤ -6). -/
def jsTinyCutoff : ℚ := mkRat 1 1000000

/-- The unique e with 10^e ≤ q < 10^(e+1), for positive q: the position of
the leading digit in the decimal rendering of q.  The digit counts of
numerator and denominator bracket it within one, and the two comparisons
select the right value. -/
def decimalExponent (q : ℚ) : ℤ :=
  let e₀ : ℤ := (Nat.log 10 q.num.natAbs : ℤ) - (Nat.log 10 q.den : ℤ)
  if (10 : ℚ) ^ (e₀ + 1) ≤ q then e₀ + 1
  else if (10 : ℚ) ^ e₀ ≤ q then e₀
  else e₀ - 1

/-- Leading decimal digit of a positive rational: the single digit before
the decimal point of its exponential-notation rendering `d.ddd...e±x`. -/
def leadingDigit (q : ℚ) : ℤ := ⌊q / (10 : ℚ) ^ decimalExponent q⌋

/-- JavaScript `parseInt(String(q))` for a number `q`.  In the
plain-decimal range the rendering's integer part is the truncation toward
zero.  Where `String` switches to exponential notation — magnitude at
least 10^21, or a nonzero magnitude below 10^-6 — `parseInt` stops at the
`e`, so only the mantissa's integer part survives: the leading decimal
digit, with the sign.  (The rendering of the exact rational is used; the
half-ulp rounding that the shortest round-trip rendering of a double can
introduce at digit boundaries is a float artifact outside this rational
model, and it never moves the integer part in the plain-decimal range.) -/
def jsParseIntOfNum (q : ℚ) : ℤ :=
  if q = 0 then 0
  else if jsExpCutoff ≤ |q| ∨ |q| < jsTinyCutoff then
    (if q < 0 then -1 else 1) * leadingDigit |q|
  else ratTrunc q

/-- JavaScript `parseInt(String(v))` for a request-body field value:
numbers via `jsParseIntOfNum`; `"null"`, `"true"`, `"false"` and
`"[object Object]"` have no leading digits, hence `NaN` (`none`). -/
def jsParseIntOfValue : JSValue → Option ℤ
  | .num q => some (jsParseIntOfNum q)
  | .str s => jsParseIntChars s.data
  | .undefined => none
  | .null => none
  | .bool _ => none
  | .obj _ => none

/-- Effective limit, from `searchTools` line 62:
`Math.min(Math.max(parseInt(String(limit)) || 10, 1), 100)`, where the
destructuring default `limit = 10` replaces an absent field and `|| 10`
replaces a `NaN` or zero parse by 10. -/
def effectiveLimit (limit : JSValue) : ℤ :=
  let v := match limit with | .undefined => JSValue.num 10 | w => w
  let base : ℤ :=
    match jsParseIntOfValue v with
    | none => 10
    | some n => if n = 0 then 10 else n
  min (max base 1) 100

/-- JavaScript `s.split(sep)` for a single-character separator, on the
character list of `s`: the list of (possibly empty) segments. -/
def jsSplitOnChar (sep : Char) : List Char → List (List Char)
  | [] => [[]]
  | c :: rest =>
    match jsSplitOnChar sep rest with
    | [] => [[]]
    | w :: ws => if c = sep then [] :: w :: ws else (c :: w) :: ws

/-- Whether `needle` occurs at the head of `hay`. -/
def startsWithChars : List Char → List Char → Bool
  | [], _ => true
  | _ :: _, [] => false
  | a :: as, b :: bs => a == b && startsWithChars as bs

/-- Whether `needle` occurs anywhere in `hay` (JavaScript `includes`). -/
def containsChars (needle : List Char) : List Char → Bool
  | [] => startsWithChars needle []
  | c :: rest => startsWithChars needle (c :: rest) || containsChars needle rest

/-- JavaScript `s.includes(sub)`. -/
def jsIncludes (s sub : String) : Bool := containsChars sub.data s.data

/-- Dynamic threshold derivation from `searchTools` lines 68-78, the branch
taken when `typeof threshold !== 'number'`: start from 0.65, set 0.5 for a
short query (`length < 10` or at most two `split(' ')` words), then set
0.75 for a specific one (`length > 30` or containing "specific" or
"exact"); the later rule overwrites the earlier. -/
def deriveThreshold (query : String) : ℚ :=
  let t : ℚ := 0.65
  let t : ℚ :=
    if query.length < 10 ∨ (jsSplitOnChar ' ' query.data).length ≤ 2 then 0.5 else t
  let t : ℚ :=
    if 30 < query.length ∨ jsIncludes query "specific" ∨ jsIncludes query "exact"
    then 0.75 else t
  t

/-- Effective threshold, from `searchTools` lines 42 and 65-78: the
destructuring default `threshold = 0.65` replaces an absent field, then a
number is clamped to [0,1] by `Math.max(0, Math.min(1, threshold))` and a
non-number is replaced by the derived threshold. -/
def effectiveThreshold (query : String) (threshold : JSValue) : ℚ :=
  let v := match threshold with | .undefined => JSValue.num 0.65 | w => w
  match v with
  | .num x => max 0 (min 1 x)
  | _ => deriveThreshold query

/-- One similarity-search candidate as returned by `searchToolsByVector`
(spec: SearchCandidate). -/
structure SearchResult where
  serverName : String
  toolName : String
  description : String
  inputSchema : String
  similarity : ℚ
deriving DecidableEq

/-- Tool record pushed into a server group (`searchTools` lines 98-104);
`toolName` is renamed to `name` there. -/
structure GroupedTool where
  name : String
  description : String
  inputSchema : String
  similarity : ℚ
  serverName : String
deriving DecidableEq

/-- The object pushed for candidate `r` into its server group. -/
def toGroupedTool (r : SearchResult) : GroupedTool :=
  { name := r.toolName
    description := r.description
    inputSchema := r.inputSchema
    similarity := r.similarity
    serverName := r.serverName }

/-- JavaScript `Array.prototype.sort` with comparator
`(a, b) => b.similarity - a.similarity` is the stable sort placing `a`
before `b` when `b.similarity ≤ a.similarity`.  A stable sort for a total
preorder has a unique result, so the structural-recursive stable
`List.insertionSort` with that relation is exactly the sorted array. -/
def sortCandidates (l : List SearchResult) : List SearchResult :=
  List.insertionSort (fun a b => b.similarity ≤ a.similarity) l

/-- Entry of the insertion-ordered `serverMap` before server-level scoring
is attached (`searchTools` lines 88-105). -/
structure RawGroup where
  serverName : String
  tools : List GroupedTool
deriving DecidableEq

/-- Process one candidate of the `forEach` of `searchTools` lines 90-105:
push onto the existing group with the same `serverName`, or append a fresh
group at the end (a JavaScript `Map` iterates in insertion order). -/
def addToGroups : List RawGroup → SearchResult → List RawGroup
  | [], r => [⟨r.serverName, [toGroupedTool r]⟩]
  | g :: gs, r =>
    if g.serverName = r.serverName then
      ⟨g.serverName, g.tools ++ [toGroupedTool r]⟩ :: gs
    else
      g :: addToGroups gs r

/-- The whole `forEach` accumulation: the `serverMap` contents in
insertion order. -/
def groupByServer (l : List SearchResult) : List RawGroup :=
  l.foldl addToGroups []

/-- Variadic `Math.max(...list)`.  The empty case is `-Infinity` in
JavaScript; it is unreachable here because every group is created with a
tool inside, and the value 0 chosen for it is never used. -/
def jsMaxList : List ℚ → ℚ
  | [] => 0
  | [q] => q
  | q :: rest => max q (jsMaxList rest)

/-- The `reduce((sum, tool) => sum + tool.similarity, 0)` accumulation. -/
def sumSimilarities (l : List GroupedTool) : ℚ :=
  l.foldl (fun s t => s + t.similarity) 0

/-- A server group with server-level scoring attached (spec: ServerGroup). -/
structure ServerGroup where
  serverName : String
  tools : List GroupedTool
  maxSimilarity : ℚ
  avgSimilarity : ℚ
deriving DecidableEq

/-- Attach scoring to one group (`searchTools` lines 108-113): re-sort the
group tools by similarity descending, take `Math.max` of the similarities
and their arithmetic mean. -/
def finalizeGroup (g : RawGroup) : ServerGroup :=
  { serverName := g.serverName
    tools := List.insertionSort (fun a b => b.similarity ≤ a.similarity) g.tools
    maxSimilarity := jsMaxList (g.tools.map (fun t => t.similarity))
    avgSimilarity := sumSimilarities g.tools / (g.tools.length : ℚ) }

/-- Lines 88-116 of `searchTools`: group the sorted candidates by server,
attach scoring, and sort the groups by `maxSimilarity` descending (again a
stable comparator sort). -/
def groupServers (sorted : List SearchResult) : List ServerGroup :=
  List.insertionSort (fun a b => b.maxSimilarity ≤ a.maxSimilarity)
    ((groupByServer sorted).map finalizeGroup)

/-- Guideline text for a non-empty result list, verbatim from line 130. -/
def guidelineFound : String :=
  "Found relevant tools. If these tools don\x27t match exactly what you need, try another search with more specific keywords."

/-- Guideline text for an empty result list, verbatim from line 131. -/
def guidelineEmpty : String :=
  "No tools found. Try broadening your search or using different keywords."

/-- Next-steps text for a non-empty result list, verbatim from line 134. -/
def nextStepsFound : String := "Use the found tools in your servers."

/-- Next-steps text for an empty result list, verbatim from line 135. -/
def nextStepsEmpty : String :=
  "Consider searching for related capabilities or more general terms."

/-- The `metadata` object of the success response (lines 123-136). -/
structure SearchMetadata where
  query : String
  threshold : ℚ
  totalResults : ℕ
  serverCount : ℕ
  guideline : String
  nextSteps : String
deriving DecidableEq

/-- Build the metadata: counts from the sorted list and the group list,
and the two texts chosen by the branch on `sortedResults.length > 0`. -/
def mkMetadata (query : String) (threshold : ℚ)
    (sorted : List SearchResult) (servers : List ServerGroup) : SearchMetadata :=
  { query := query
    threshold := threshold
    totalResults := sorted.length
    serverCount := servers.length
    guideline := if 0 < sorted.length then guidelineFound else guidelineEmpty
    nextSteps := if 0 < sorted.length then nextStepsFound else nextStepsEmpty }

/-- The body of a search request as destructured on line 42. -/
structure SearchRequestBody where
  query : JSValue
  limit : JSValue
  threshold : JSValue

/-- HTTP-level outcome of `searchTools`: `failure status message error?`
models `res.status(status).json({success: false, message, error?})`, and
`ok` models the 200 `{success: true, data: {tools, servers, metadata}}`. -/
inductive SearchResponse where
  | failure (status : ℕ) (message : String) (error : Option String)
  | ok (tools : List SearchResult) (servers : List ServerGroup)
      (metadata : SearchMetadata)
deriving DecidableEq

/-- Message of the query validation failure (line 47). -/
def queryRequiredMsg : String := "Query parameter is required and must be a string"

/-- Message of the feature-gate failure (line 57). -/
def smartRoutingDisabledMsg : String :=
  "Smart routing is not enabled. Please enable it in settings."

/-- The `searchTools` request handler.  `enabled` is
`getSmartRoutingConfig().enabled`; `searchToolsByVector` is the external
similarity search, with `Except.error` modelling a thrown error caught by
the surrounding `try`/`catch` (line 141).  The guard
`!query || typeof query !== 'string'` rejects exactly the values that are
not nonempty strings. -/
def searchTools (enabled : Bool)
    (searchToolsByVector : String → ℤ → ℚ → Except String (List SearchResult))
    (body : SearchRequestBody) : SearchResponse :=
  match body.query with
  | .str q =>
    if q = "" then .failure 400 queryRequiredMsg none
    else if ¬ enabled then .failure 503 smartRoutingDisabledMsg none
    else
      let limitNum := effectiveLimit body.limit
      let thresholdNum := effectiveThreshold q body.threshold
      match searchToolsByVector q limitNum thresholdNum with
      | .error e => .failure 500 "Failed to search tools" (some e)
      | .ok searchResults =>
        let sorted := sortCandidates searchResults
        let servers := groupServers sorted
        .ok sorted servers (mkMetadata q thresholdNum sorted servers)
  | _ => .failure 400 queryRequiredMsg none

/-- One item of an invocation result's `content` array.  Extra
backend-specific fields are passed through opaquely and not modelled. -/
structure ContentItem where
  type : String
  text : Option String
deriving DecidableEq

/-- The `ToolCallResult` shape returned by `handleCallToolRequest`
(spec: InvocationResult): both fields optional. -/
structure ToolCallResult where
  content : Option (List ContentItem)
  isError : Option Bool
deriving DecidableEq

/-- The body of a call request as destructured on line 157. -/
structure CallRequestBody where
  toolName : JSValue
  arguments : JSValue

/-- Request context of `callTool` outside the body: the `:server` route
parameter and the `x-session-id` header value. -/
structure CallContext where
  serverParam : Option String
  sessionHeader : JSValue

/-- The destructuring default `arguments: toolArgs = {}` of line 157. -/
def argsOrDefault (args : JSValue) : JSValue :=
  match args with | .undefined => JSValue.obj [] | v => v

/-- The session id attached to the dispatch call (line 179):
`req.headers['x-session-id'] || 'api-session'`. -/
def sessionIdOf (h : JSValue) : JSValue :=
  if truthy h then h else .str "api-session"

/-- The target server attached to the dispatch call (line 180):
`server || undefined` turns an empty route segment into no hint. -/
def serverOf : Option String → Option String
  | some s => if s = "" then none else some s
  | none => none

/-- Signature of the external `handleCallToolRequest` dispatch handler: it
receives the synthesized request name (`'call_tool'`), the tool name and
arguments from the body, and the `extra` context (session id, server
hint); `Except.error` models a thrown error. -/
abbrev CallHandler :=
  String → JSValue → JSValue → JSValue → Option String →
    Except String ToolCallResult

/-- HTTP-level outcome of `callTool`, mirroring `SearchResponse`: `ok`
models the 200 `{success: true, data: {content, toolName, arguments}}`. -/
inductive CallResponse where
  | failure (status : ℕ) (message : String) (error : Option String)
  | ok (content : List ContentItem) (toolName : JSValue) (arguments : JSValue)

/-- The `callTool` request handler (lines 154-203).  It takes the
smart-routing flag only to make visible that, unlike `searchTools`, its
behaviour never consults it — the source body contains no feature-gate
check.  `result.content || []` is the `getD []`: a present array (even an
empty one, which is truthy in JavaScript) passes through unchanged, an
absent one becomes `[]`; `isError` is ignored by the response. -/
def callTool (enabled : Bool) (handleCallToolRequest : CallHandler)
    (ctx : CallContext) (body : CallRequestBody) : CallResponse :=
  let toolArgs := argsOrDefault body.arguments
  if ¬ truthy body.toolName then
    .failure 400 "toolName is required" none
  else
    match handleCallToolRequest "call_tool" body.toolName toolArgs
        (sessionIdOf ctx.sessionHeader) (serverOf ctx.serverParam) with
    | .error e => .failure 500 "Failed to call tool" (some e)
    | .ok result => .ok (result.content.getD []) body.toolName toolArgs

/-- The metadata threshold reported by a search response, `none` on a
failure response. -/
def responseThreshold : SearchResponse → Option ℚ
  | .ok _ _ m => some m.threshold
  | .failure _ _ _ => none

/-- Signature of the external `searchToolsByVector` similarity search. -/
abbrev SearchFn := String → ℤ → ℚ → Except String (List SearchResult)

/-- The candidate set of the spec's end-to-end scenario:
server A tool x at 0.9, server B tool y at 0.95, server A tool z at 0.8. -/
def c8Candidates : List SearchResult :=
  [⟨"A", "x", "", "", 0.9⟩, ⟨"B", "y", "", "", 0.95⟩, ⟨"A", "z", "", "", 0.8⟩]

instance : IsTotal SearchResult (fun a b => b.similarity ≤ a.similarity) :=
  ⟨fun a b => le_total b.similarity a.similarity⟩

instance : IsTrans SearchResult (fun a b => b.similarity ≤ a.similarity) :=
  ⟨fun _ _ _ h1 h2 => le_trans h2 h1⟩

instance : IsTotal GroupedTool (fun a b => b.similarity ≤ a.similarity) :=
  ⟨fun a b => le_total b.similarity a.similarity⟩

instance : IsTrans GroupedTool (fun a b => b.similarity ≤ a.similarity) :=
  ⟨fun _ _ _ h1 h2 => le_trans h2 h1⟩

instance : IsTotal ServerGroup (fun a b => b.maxSimilarity ≤ a.maxSimilarity) :=
  ⟨fun a b => le_total b.maxSimilarity a.maxSimilarity⟩

instance : IsTrans ServerGroup (fun a b => b.maxSimilarity ≤ a.maxSimilarity) :=
  ⟨fun _ _ _ h1 h2 => le_trans h2 h1⟩

/-- Pushing one candidate into the group accumulator adds exactly that
candidate's grouped tool to the multiset of all grouped tools. -/
lemma flatten_addToGroups (gs : List RawGroup) (r : SearchResult) :
    ((addToGroups gs r).map RawGroup.tools).flatten.Perm
      ((gs.map RawGroup.tools).flatten ++ [toGroupedTool r]) := by
  induction gs with
  | nil => simp [addToGroups]
  | cons g gs ih =>
    by_cases h : g.serverName = r.serverName
    · simp only [addToGroups, if_pos h, List.map_cons, List.flatten_cons]
      have e1 : (g.tools ++ [toGroupedTool r]) ++ (gs.map RawGroup.tools).flatten
          = g.tools ++ ([toGroupedTool r] ++ (gs.map RawGroup.tools).flatten) := by
        simp [List.append_assoc]
      have e2 : (g.tools ++ (gs.map RawGroup.tools).flatten) ++ [toGroupedTool r]
          = g.tools ++ ((gs.map RawGroup.tools).flatten ++ [toGroupedTool r]) := by
        simp [List.append_assoc]
      rw [e1, e2]
      exact List.Perm.append_left _ List.perm_append_comm
    · simp only [addToGroups, if_neg h, List.map_cons, List.flatten_cons]
      have e2 : (g.tools ++ (gs.map RawGroup.tools).flatten) ++ [toGroupedTool r]
          = g.tools ++ ((gs.map RawGroup.tools).flatten ++ [toGroupedTool r]) := by
        simp [List.append_assoc]
      rw [e2]
      exact List.Perm.append_left _ ih

/-- The whole `forEach` accumulation over `l`, started from any
accumulator, collects the accumulator's tools plus one grouped tool per
candidate of `l`. -/
lemma flatten_foldl_addToGroups (l : List SearchResult) :
    ∀ gs : List RawGroup,
      ((l.foldl addToGroups gs).map RawGroup.tools).flatten.Perm
        ((gs.map RawGroup.tools).flatten ++ l.map toGroupedTool) := by
  induction l with
  | nil => intro gs; simp
  | cons r l ih =>
    intro gs
    have step1 := ih (addToGroups gs r)
    have step2 := (flatten_addToGroups gs r).append_right (l.map toGroupedTool)
    have e : ((gs.map RawGroup.tools).flatten ++ [toGroupedTool r]) ++ l.map toGroupedTool
        = (gs.map RawGroup.tools).flatten ++ (r :: l).map toGroupedTool := by
      simp
    rw [e] at step2
    exact (step1.trans step2)

/-- The tools collected across all raw groups are exactly the grouped
tools of the input candidates, as a multiset. -/
lemma flatten_groupByServer (l : List SearchResult) :
    ((groupByServer l).map RawGroup.tools).flatten.Perm (l.map toGroupedTool) := by
  have h := flatten_foldl_addToGroups l []
  simpa [groupByServer] using h

/-- Pushing a candidate preserves the invariant that every tool of a group
carries that group's `serverName`. -/
lemma keyed_addToGroups (gs : List RawGroup) (r : SearchResult)
    (h : ∀ g ∈ gs, ∀ t ∈ g.tools, t.serverName = g.serverName) :
    ∀ g ∈ addToGroups gs r, ∀ t ∈ g.tools, t.serverName = g.serverName := by
  induction gs with
  | nil =>
    intro g hg t ht
    simp [addToGroups] at hg
    subst hg
    simp [toGroupedTool] at ht
    subst ht
    simp [toGroupedTool]
  | cons g₀ gs ih =>
    by_cases hc : g₀.serverName = r.serverName
    · intro g hg t ht
      simp only [addToGroups, if_pos hc, List.mem_cons] at hg
      rcases hg with hg | hg
      · subst hg
        simp only [List.mem_append, List.mem_singleton] at ht
        rcases ht with ht | ht
        · exact h g₀ (List.mem_cons_self _ _) t ht
        · subst ht; simp [toGroupedTool, hc]
      · exact h g (List.mem_cons_of_mem _ hg) t ht
    · intro g hg t ht
      simp only [addToGroups, if_neg hc, List.mem_cons] at hg
      rcases hg with hg | hg
      · subst hg; exact h g (List.mem_cons_self _ _) t ht
      · exact ih (fun g' hg' => h g' (List.mem_cons_of_mem _ hg')) g hg t ht

/-- Folding the accumulation preserves the per-group key invariant. -/
lemma keyed_foldl_addToGroups (l : List SearchResult) :
    ∀ gs : List RawGroup,
      (∀ g ∈ gs, ∀ t ∈ g.tools, t.serverName = g.serverName) →
      ∀ g ∈ l.foldl addToGroups gs, ∀ t ∈ g.tools, t.serverName = g.serverName := by
  induction l with
  | nil => intro gs h; simpa using h
  | cons r l ih =>
    intro gs h
    exact ih (addToGroups gs r) (keyed_addToGroups gs r h)

/-- Every tool of a raw group carries that group's `serverName`. -/
lemma keyed_groupByServer (l : List SearchResult) :
    ∀ g ∈ groupByServer l, ∀ t ∈ g.tools, t.serverName = g.serverName :=
  keyed_foldl_addToGroups l [] (by simp)

/-- Pushing a candidate either leaves the key list unchanged (existing
server) or appends the one new key at the end (fresh server). -/
lemma keys_addToGroups (gs : List RawGroup) (r : SearchResult) :
    (addToGroups gs r).map RawGroup.serverName =
      if r.serverName ∈ gs.map RawGroup.serverName
      then gs.map RawGroup.serverName
      else gs.map RawGroup.serverName ++ [r.serverName] := by
  induction gs with
  | nil => simp [addToGroups]
  | cons g gs ih =>
    by_cases hc : g.serverName = r.serverName
    · simp [addToGroups, if_pos hc, hc]
    · simp only [addToGroups, if_neg hc, List.map_cons, ih]
      by_cases hm : r.serverName ∈ gs.map RawGroup.serverName
      · simp [hm, Ne.symm hc]
      · simp [hm, Ne.symm hc]

/-- Pushing a candidate preserves distinctness of the group keys. -/
lemma nodup_keys_addToGroups (gs : List RawGroup) (r : SearchResult)
    (h : (gs.map RawGroup.serverName).Nodup) :
    ((addToGroups gs r).map RawGroup.serverName).Nodup := by
  rw [keys_addToGroups]
  by_cases hm : r.serverName ∈ gs.map RawGroup.serverName
  · simpa [hm] using h
  · simp only [if_neg hm]
    rw [List.nodup_append]
    refine ⟨h, List.nodup_singleton _, ?_⟩
    intro a ha hb
    rw [List.mem_singleton] at hb
    subst hb
    exact hm ha

/-- Folding the accumulation preserves distinctness of the group keys. -/
lemma nodup_keys_foldl_addToGroups (l : List SearchResult) :
    ∀ gs : List RawGroup,
      (gs.map RawGroup.serverName).Nodup →
      ((l.foldl addToGroups gs).map RawGroup.serverName).Nodup := by
  induction l with
  | nil => intro gs h; simpa using h
  | cons r l ih =>
    intro gs h
    exact ih (addToGroups gs r) (nodup_keys_addToGroups gs r h)

/-- The raw groups have pairwise-distinct `serverName` keys. -/
lemma nodup_keys_groupByServer (l : List SearchResult) :
    ((groupByServer l).map RawGroup.serverName).Nodup :=
  nodup_keys_foldl_addToGroups l [] (by simp)

/-- Pushing a candidate preserves nonemptiness of every group. -/
lemma nonempty_addToGroups (gs : List RawGroup) (r : SearchResult)
    (h : ∀ g ∈ gs, g.tools ≠ []) :
    ∀ g ∈ addToGroups gs r, g.tools ≠ [] := by
  induction gs with
  | nil =>
    intro g hg
    simp [addToGroups] at hg
    subst hg
    simp
  | cons g₀ gs ih =>
    by_cases hc : g₀.serverName = r.serverName
    · intro g hg
      simp only [addToGroups, if_pos hc, List.mem_cons] at hg
      rcases hg with hg | hg
      · subst hg; simp
      · exact h g (List.mem_cons_of_mem _ hg)
    · intro g hg
      simp only [addToGroups, if_neg hc, List.mem_cons] at hg
      rcases hg with hg | hg
      · subst hg; exact h g (List.mem_cons_self _ _)
      · exact ih (fun g' hg' => h g' (List.mem_cons_of_mem _ hg')) g hg

/-- Folding the accumulation preserves nonemptiness of every group. -/
lemma nonempty_foldl_addToGroups (l : List SearchResult) :
    ∀ gs : List RawGroup,
      (∀ g ∈ gs, g.tools ≠ []) →
      ∀ g ∈ l.foldl addToGroups gs, g.tools ≠ [] := by
  induction l with
  | nil => intro gs h; simpa using h
  | cons r l ih =>
    intro gs h
    exact ih (addToGroups gs r) (nonempty_addToGroups gs r h)

/-- Every raw group holds at least one tool. -/
lemma nonempty_groupByServer (l : List SearchResult) :
    ∀ g ∈ groupByServer l, g.tools ≠ [] :=
  nonempty_foldl_addToGroups l [] (by simp)

/-- Every element of a nonempty list is bounded by its variadic maximum. -/
lemma le_jsMaxList : ∀ (l : List ℚ), ∀ x ∈ l, x ≤ jsMaxList l
  | [_], x, hx => by
    rw [List.mem_singleton] at hx
    subst hx
    exact le_refl _
  | q :: r :: rest, x, hx => by
    rcases List.mem_cons.mp hx with h | h
    · subst h
      exact le_max_left _ _
    · exact le_trans (le_jsMaxList (r :: rest) x h) (le_max_right _ _)

/-- The variadic maximum of a nonempty list is one of its elements. -/
lemma jsMaxList_mem : ∀ (l : List ℚ), l ≠ [] → jsMaxList l ∈ l
  | [], h => absurd rfl h
  | [q], _ => by simp [jsMaxList]
  | q :: r :: rest, _ => by
    show max q (jsMaxList (r :: rest)) ∈ q :: r :: rest
    rcases max_choice q (jsMaxList (r :: rest)) with h | h
    · rw [h]; exact List.mem_cons_self _ _
    · rw [h]
      exact List.mem_cons_of_mem _ (jsMaxList_mem (r :: rest) (by simp))

/-- The similarity `reduce` from any starting accumulator is that
accumulator plus the sum of the similarities. -/
lemma foldl_add_similarity (l : List GroupedTool) :
    ∀ a : ℚ, l.foldl (fun s t => s + t.similarity) a
      = a + (l.map (fun t => t.similarity)).sum := by
  induction l with
  | nil => intro a; simp
  | cons t l ih =>
    intro a
    simp only [List.foldl_cons, List.map_cons, List.sum_cons, ih]
    ring

/-- The similarity `reduce` computes the sum of the similarities. -/
lemma sumSimilarities_eq (l : List GroupedTool) :
    sumSimilarities l = (l.map (fun t => t.similarity)).sum := by
  simpa [sumSimilarities] using foldl_add_similarity l 0

/-- Scored one group at a time, each finalized group's tools are a
permutation of the raw group's tools, so the grand multiset is unchanged. -/
lemma flatten_map_finalize (raw : List RawGroup) :
    ((raw.map (fun rg => (finalizeGroup rg).tools)).flatten).Perm
      ((raw.map RawGroup.tools).flatten) := by
  induction raw with
  | nil => simp
  | cons rg raw ih =>
    simp only [List.map_cons, List.flatten_cons, finalizeGroup]
    exact (List.perm_insertionSort _ rg.tools).append ih

/-- The tools of the final sorted server groups are, as a multiset,
exactly the grouped tools of the input candidates. -/
lemma flatten_groupServers (m : List SearchResult) :
    (((groupServers m).map (fun g => g.tools)).flatten).Perm (m.map toGroupedTool) := by
  have h1 : ((groupServers m).map (fun g => g.tools)).Perm
      (((groupByServer m).map finalizeGroup).map (fun g => g.tools)) :=
    (List.perm_insertionSort _ _).map _
  have h2 := h1.flatten
  have h3 : ((groupByServer m).map finalizeGroup).map (fun g => g.tools)
      = (groupByServer m).map (fun rg => (finalizeGroup rg).tools) := by
    simp [List.map_map]
  rw [h3] at h2
  exact h2.trans ((flatten_map_finalize _).trans (flatten_groupByServer m))

/-- Membership in the final group list is membership of a finalized raw
group. -/
lemma mem_groupServers {m : List SearchResult} {g : ServerGroup} :
    g ∈ groupServers m ↔ ∃ rg ∈ groupByServer m, finalizeGroup rg = g := by
  rw [groupServers, List.mem_insertionSort, List.mem_map]

/-- C1: the claim says a search request whose threshold input is not an
explicitly supplied number — including one that omits the field — gets
the query-derived threshold, in particular 0.5 for "sync files".  The
derivation itself does return 0.5 for "sync files" (and fires for
explicitly supplied non-numbers such as `null`), but an omitted field is
replaced by the destructuring default 0.65, which is a number, so the
handler reports 0.65 instead of the derived 0.5: the code contradicts its
own comment that it derives when no explicit threshold is provided. -/
theorem search_threshold_omitted_not_derived :
    deriveThreshold "sync files" = 0.5
    ∧ effectiveThreshold "sync files" JSValue.null = deriveThreshold "sync files"
    ∧ effectiveThreshold "sync files" JSValue.undefined = 0.65
    ∧ responseThreshold (searchTools true (fun _ _ _ => Except.ok [])
        ⟨JSValue.str "sync files", JSValue.undefined, JSValue.undefined⟩) = some 0.65
    ∧ (0.65 : ℚ) ≠ 0.5 := by
  refine ⟨rfl, rfl, ?_, ?_, by norm_num⟩
  · simp only [effectiveThreshold]; norm_num
  · simp only [searchTools, responseThreshold, mkMetadata]
    norm_num [effectiveThreshold]
    simp

/-- C2: whenever the dispatch handler returns a result, `callTool` answers
with an HTTP-level success carrying the result's content (defaulted to the
empty sequence when absent) together with the echoed tool name and
arguments — regardless of the result's `isError` flag, which is quantified
over and never inspected. -/
theorem call_success_passthrough (enabled : Bool) (h : CallHandler)
    (ctx : CallContext) (body : CallRequestBody) (result : ToolCallResult)
    (htruthy : truthy body.toolName = true)
    (hok : h "call_tool" body.toolName (argsOrDefault body.arguments)
        (sessionIdOf ctx.sessionHeader) (serverOf ctx.serverParam) = Except.ok result) :
    callTool enabled h ctx body =
      CallResponse.ok (result.content.getD []) body.toolName
        (argsOrDefault body.arguments) := by
  simp [callTool, htruthy, hok]

/-- Witness for C2: a handler result with `isError := some true` and no
content still produces the success response with empty content. -/
theorem call_success_passthrough_witness :
    callTool true (fun _ _ _ _ _ => Except.ok ⟨none, some true⟩)
      ⟨none, JSValue.undefined⟩ ⟨JSValue.str "t", JSValue.undefined⟩ =
      CallResponse.ok [] (JSValue.str "t") (JSValue.obj []) :=
  call_success_passthrough true _ _ _ ⟨none, some true⟩ rfl rfl

/-- Positivity of the downward exponential-notation cutoff 10^-6. -/
lemma jsTinyCutoff_pos : (0:ℚ) < jsTinyCutoff := by
  rw [jsTinyCutoff, Rat.mkRat_eq_div]
  norm_num

/-- The downward cutoff 10^-6 is below 1. -/
lemma jsTinyCutoff_lt_one : jsTinyCutoff < 1 := by
  rw [jsTinyCutoff, Rat.mkRat_eq_div]
  norm_num

/-- The upward exponential-notation cutoff 10^21 is above 100. -/
lemma hundred_lt_jsExpCutoff : (100:ℚ) < jsExpCutoff := by
  rw [jsExpCutoff, Rat.mkRat_eq_div]
  norm_num

/-- The computed decimal exponent is correct: 10^e ≤ q < 10^(e+1) for
every positive rational q.  The digit counts of numerator and denominator
bracket the exponent within one, and the comparisons in the definition
select the right value. -/
lemma decimalExponent_bounds (q : ℚ) (hq : 0 < q) :
    (10:ℚ) ^ decimalExponent q ≤ q ∧ q < (10:ℚ) ^ (decimalExponent q + 1) := by
  have hnum : 0 < q.num := Rat.num_pos.mpr hq
  have hn0 : q.num.natAbs ≠ 0 := by omega
  have hd0 : 0 < q.den := q.pos
  set a := Nat.log 10 q.num.natAbs with ha
  set b := Nat.log 10 q.den with hb
  have h1 : (10:ℕ) ^ a ≤ q.num.natAbs := Nat.pow_log_le_self 10 hn0
  have h2 : q.num.natAbs < 10 ^ (a + 1) := Nat.lt_pow_succ_log_self (by norm_num) _
  have h3 : (10:ℕ) ^ b ≤ q.den := Nat.pow_log_le_self 10 (by omega)
  have h4 : q.den < 10 ^ (b + 1) := Nat.lt_pow_succ_log_self (by norm_num) _
  have hcast : ((q.num.natAbs : ℚ)) = (q.num : ℚ) := by
    rw [Int.cast_natAbs]
    exact congrArg (fun z : ℤ => (z : ℚ)) (abs_of_nonneg hnum.le)
  have hql : q = (q.num.natAbs : ℚ) / (q.den : ℚ) := by
    rw [hcast]
    exact (Rat.num_div_den q).symm
  have hdq : (0:ℚ) < (q.den : ℚ) := by exact_mod_cast hd0
  have hq1 : (10:ℚ) ^ (a:ℤ) ≤ (q.num.natAbs : ℚ) := by
    rw [zpow_natCast]
    exact_mod_cast h1
  have hq2 : (q.num.natAbs : ℚ) < (10:ℚ) ^ ((a:ℤ) + 1) := by
    have he : ((a:ℤ) + 1) = ((a + 1 : ℕ) : ℤ) := by push_cast; ring
    rw [he, zpow_natCast]
    exact_mod_cast h2
  have hq3 : (10:ℚ) ^ (b:ℤ) ≤ (q.den : ℚ) := by
    rw [zpow_natCast]
    exact_mod_cast h3
  have hq4 : (q.den : ℚ) < (10:ℚ) ^ ((b:ℤ) + 1) := by
    have he : ((b:ℤ) + 1) = ((b + 1 : ℕ) : ℤ) := by push_cast; ring
    rw [he, zpow_natCast]
    exact_mod_cast h4
  have hten : (10:ℚ) ≠ 0 := by norm_num
  have hupper : q < (10:ℚ) ^ ((a:ℤ) - (b:ℤ) + 1) := by
    rw [hql, div_lt_iff₀ hdq]
    have hsplit : (10:ℚ) ^ ((a:ℤ) + 1)
        = (10:ℚ) ^ ((a:ℤ) - (b:ℤ) + 1) * (10:ℚ) ^ (b:ℤ) := by
      rw [← zpow_add₀ hten]
      congr 1
      ring
    calc (q.num.natAbs : ℚ) < (10:ℚ) ^ ((a:ℤ) + 1) := hq2
      _ = (10:ℚ) ^ ((a:ℤ) - (b:ℤ) + 1) * (10:ℚ) ^ (b:ℤ) := hsplit
      _ ≤ (10:ℚ) ^ ((a:ℤ) - (b:ℤ) + 1) * (q.den : ℚ) :=
          mul_le_mul_of_nonneg_left hq3 (le_of_lt (zpow_pos (by norm_num) _))
  have hlower : (10:ℚ) ^ ((a:ℤ) - (b:ℤ) - 1) < q := by
    rw [hql, lt_div_iff₀ hdq]
    have hsplit : (10:ℚ) ^ ((a:ℤ))
        = (10:ℚ) ^ ((a:ℤ) - (b:ℤ) - 1) * (10:ℚ) ^ ((b:ℤ) + 1) := by
      rw [← zpow_add₀ hten]
      congr 1
      ring
    calc (10:ℚ) ^ ((a:ℤ) - (b:ℤ) - 1) * (q.den : ℚ)
        < (10:ℚ) ^ ((a:ℤ) - (b:ℤ) - 1) * (10:ℚ) ^ ((b:ℤ) + 1) :=
          (mul_lt_mul_left (zpow_pos (by norm_num) _)).mpr hq4
      _ = (10:ℚ) ^ (a:ℤ) := hsplit.symm
      _ ≤ (q.num.natAbs : ℚ) := hq1
  simp only [decimalExponent]
  rw [← ha, ← hb]
  split_ifs with hc1 hc2
  · exact ⟨hc1, lt_of_lt_of_le hupper (zpow_le_zpow_right₀ (by norm_num) (by omega))⟩
  · exact ⟨hc2, hupper⟩
  · refine ⟨hlower.le, ?_⟩
    rw [sub_add_cancel]
    exact not_le.mp hc2

/-- The leading decimal digit of a positive rational is between 1 and 9. -/
lemma leadingDigit_bounds (q : ℚ) (hq : 0 < q) :
    1 ≤ leadingDigit q ∧ leadingDigit q ≤ 9 := by
  obtain ⟨hlo, hhi⟩ := decimalExponent_bounds q hq
  have hpow : (0:ℚ) < (10:ℚ) ^ decimalExponent q := zpow_pos (by norm_num) _
  constructor
  · rw [leadingDigit, Int.le_floor]
    push_cast
    rw [one_le_div hpow]
    exact hlo
  · rw [leadingDigit]
    have hq10 : q / (10:ℚ) ^ decimalExponent q < 10 := by
      rw [div_lt_iff₀ hpow]
      calc q < (10:ℚ) ^ (decimalExponent q + 1) := hhi
        _ = 10 * (10:ℚ) ^ decimalExponent q := by
            rw [zpow_add_one₀ (by norm_num : (10:ℚ) ≠ 0)]
            ring
    have hf : ⌊q / (10:ℚ) ^ decimalExponent q⌋ < 10 := Int.floor_lt.mpr (by exact_mod_cast hq10)
    omega

/-- In the plain-decimal range the parse is the truncation toward zero. -/
lemma jsParseIntOfNum_decimal (q : ℚ) (h0 : q ≠ 0)
    (h1 : |q| < jsExpCutoff) (h2 : jsTinyCutoff ≤ |q|) :
    jsParseIntOfNum q = ratTrunc q := by
  rw [jsParseIntOfNum, if_neg h0, if_neg]
  rw [not_or, not_le, not_lt]
  exact ⟨h1, h2⟩

/-- In the exponential-notation range the parse is the signed leading
digit of the magnitude. -/
lemma jsParseIntOfNum_exponential (q : ℚ) (h0 : q ≠ 0)
    (h : jsExpCutoff ≤ |q| ∨ |q| < jsTinyCutoff) :
    jsParseIntOfNum q = (if q < 0 then -1 else 1) * leadingDigit |q| := by
  rw [jsParseIntOfNum, if_neg h0, if_pos h]

/-- C3 counterexample: the claim says a negative limit yields 1, but the
negative input -1/2 truncates to 0 under `parseInt`, which is falsy, so
the `|| 10` fallback applies and the effective limit is 10, not 1. -/
theorem limit_negative_fraction_cex :
    ((-1/2 : ℚ) < 0)
    ∧ effectiveLimit (JSValue.num (-1/2)) = 10
    ∧ (10 : ℤ) ≠ 1 := by
  refine ⟨by norm_num, ?_, by decide⟩
  have habs : |(-1/2 : ℚ)| = 1/2 := by
    rw [abs_of_neg (by norm_num : (-1/2 : ℚ) < 0)]
    norm_num
  have hparse : jsParseIntOfNum (-1/2 : ℚ) = 0 := by
    rw [jsParseIntOfNum_decimal _ (by norm_num) ?_ ?_]
    · have hce : ⌈(-1/2 : ℚ)⌉ = 0 := by
        have hle : ⌈(-1/2 : ℚ)⌉ ≤ 0 := Int.ceil_le.mpr (by norm_num)
        have hgt : (-1:ℤ) < ⌈(-1/2 : ℚ)⌉ := Int.lt_ceil.mpr (by norm_num)
        omega
      rw [ratTrunc, if_neg (by norm_num : ¬ (0:ℚ) ≤ -1/2), hce]
    · rw [habs, jsExpCutoff, Rat.mkRat_eq_div]
      norm_num
    · rw [habs, jsTinyCutoff, Rat.mkRat_eq_div]
      norm_num
  simp only [effectiveLimit, jsParseIntOfValue, hparse]
  norm_num

/-- C3 as amended: the effective limit always lies in [1, 100]; an input
whose `parseInt` fails yields 10 (non-digit strings, `null`, booleans,
objects), as does an omitted field; a negative limit yields 1 when it is
at most -1; a negative limit in (-1, -10^-6] truncates to zero and yields
the fallback 10; a negative limit in (-10^-6, 0) is rendered in
exponential notation, `parseInt` reads minus the leading digit, and the
clamp yields 1; a limit above 100 yields 100 when below 10^21; from 10^21
upward the exponential rendering makes `parseInt` read the leading digit,
so the effective limit is that digit, between 1 and 9; and the value
handed to the similarity search is exactly this effective limit. -/
theorem limit_clamped_amended :
    (∀ v : JSValue, 1 ≤ effectiveLimit v ∧ effectiveLimit v ≤ 100)
    ∧ (∀ s : String, jsParseIntChars s.data = none →
        effectiveLimit (JSValue.str s) = 10)
    ∧ effectiveLimit JSValue.null = 10
    ∧ (∀ b, effectiveLimit (JSValue.bool b) = 10)
    ∧ (∀ fs, effectiveLimit (JSValue.obj fs) = 10)
    ∧ effectiveLimit JSValue.undefined = 10
    ∧ (∀ q : ℚ, q ≤ -1 → effectiveLimit (JSValue.num q) = 1)
    ∧ (∀ q : ℚ, -1 < q → q ≤ -jsTinyCutoff → effectiveLimit (JSValue.num q) = 10)
    ∧ (∀ q : ℚ, -jsTinyCutoff < q → q < 0 → effectiveLimit (JSValue.num q) = 1)
    ∧ (∀ q : ℚ, 100 < q → q < jsExpCutoff → effectiveLimit (JSValue.num q) = 100)
    ∧ (∀ q : ℚ, jsExpCutoff ≤ q →
        effectiveLimit (JSValue.num q) = leadingDigit q
        ∧ 1 ≤ leadingDigit q ∧ leadingDigit q ≤ 9)
    ∧ (∀ (q : String) (lim thr : JSValue), q ≠ "" →
        searchTools true (fun _ l _ => Except.error (toString l))
          ⟨JSValue.str q, lim, thr⟩ =
        SearchResponse.failure 500 "Failed to search tools"
          (some (toString (effectiveLimit lim)))) := by
  refine ⟨?_, ?_, by decide, ?_, ?_, ?_, ?_, ?_, ?_, ?_, ?_, ?_⟩
  · intro v
    simp only [effectiveLimit]
    constructor <;> omega
  · intro s h
    simp [effectiveLimit, jsParseIntOfValue, h]
  · intro b; cases b <;> rfl
  · intro fs; rfl
  · have h10 : jsParseIntOfNum (10:ℚ) = 10 := by
      rw [jsParseIntOfNum_decimal _ (by norm_num) ?_ ?_]
      · rw [ratTrunc, if_pos (by norm_num : (0:ℚ) ≤ 10)]
        have hfl : ⌊(10:ℚ)⌋ = 10 := by
          have h1 : (10:ℤ) ≤ ⌊(10:ℚ)⌋ := Int.le_floor.mpr (by norm_num)
          have h2 : ⌊(10:ℚ)⌋ < 11 := Int.floor_lt.mpr (by norm_num)
          omega
        rw [hfl]
      · rw [abs_of_pos (by norm_num : (0:ℚ) < 10), jsExpCutoff, Rat.mkRat_eq_div]
        norm_num
      · rw [abs_of_pos (by norm_num : (0:ℚ) < 10), jsTinyCutoff, Rat.mkRat_eq_div]
        norm_num
    simp only [effectiveLimit, jsParseIntOfValue, h10]
    norm_num
  · intro q h1
    have hqneg : q < 0 := lt_of_le_of_lt h1 (by norm_num)
    have h0 : q ≠ 0 := ne_of_lt hqneg
    by_cases hexp : jsExpCutoff ≤ |q| ∨ |q| < jsTinyCutoff
    · have hp := jsParseIntOfNum_exponential q h0 hexp
      rw [if_pos hqneg] at hp
      obtain ⟨hld1, hld9⟩ := leadingDigit_bounds |q| (abs_pos.mpr h0)
      simp only [effectiveLimit, jsParseIntOfValue, hp]
      rw [if_neg (by omega : ¬ (-1) * leadingDigit |q| = 0)]
      omega
    · rw [not_or, not_le, not_lt] at hexp
      obtain ⟨hA, hB⟩ := hexp
      have hp := jsParseIntOfNum_decimal q h0 hA hB
      simp only [effectiveLimit, jsParseIntOfValue, hp]
      rw [ratTrunc, if_neg (not_le.mpr hqneg)]
      have hle : ⌈q⌉ ≤ -1 := Int.ceil_le.mpr (by exact_mod_cast h1)
      rw [if_neg (by omega : ¬ ⌈q⌉ = 0)]
      omega
  · intro q h1 h2
    have hqneg : q < 0 := lt_of_le_of_lt h2 (by simpa using jsTinyCutoff_pos)
    have h0 : q ≠ 0 := ne_of_lt hqneg
    have habs : |q| = -q := abs_of_neg hqneg
    have hA : |q| < jsExpCutoff := by
      rw [habs]
      have := hundred_lt_jsExpCutoff
      linarith
    have hB : jsTinyCutoff ≤ |q| := by
      rw [habs]
      linarith
    have hp := jsParseIntOfNum_decimal q h0 hA hB
    simp only [effectiveLimit, jsParseIntOfValue, hp]
    rw [ratTrunc, if_neg (not_le.mpr hqneg)]
    have hce : ⌈q⌉ = 0 := by
      have hle : ⌈q⌉ ≤ 0 := Int.ceil_le.mpr (by exact_mod_cast hqneg.le)
      have hgt : (-1:ℤ) < ⌈q⌉ := Int.lt_ceil.mpr (by exact_mod_cast h1)
      omega
    rw [hce]
    norm_num
  · intro q h1 h2
    have h0 : q ≠ 0 := ne_of_lt h2
    have habs : |q| = -q := abs_of_neg h2
    have hB : |q| < jsTinyCutoff := by
      rw [habs]
      linarith
    have hp := jsParseIntOfNum_exponential q h0 (Or.inr hB)
    rw [if_pos h2] at hp
    obtain ⟨hld1, hld9⟩ := leadingDigit_bounds |q| (abs_pos.mpr h0)
    simp only [effectiveLimit, jsParseIntOfValue, hp]
    rw [if_neg (by omega : ¬ (-1) * leadingDigit |q| = 0)]
    omega
  · intro q h1 h2
    have hqpos : (0:ℚ) < q := lt_trans (by norm_num) h1
    have h0 : q ≠ 0 := ne_of_gt hqpos
    have habs : |q| = q := abs_of_pos hqpos
    have hA : |q| < jsExpCutoff := by rw [habs]; exact h2
    have hB : jsTinyCutoff ≤ |q| := by
      rw [habs]
      have := jsTinyCutoff_lt_one
      linarith
    have hp := jsParseIntOfNum_decimal q h0 hA hB
    simp only [effectiveLimit, jsParseIntOfValue, hp]
    rw [ratTrunc, if_pos hqpos.le]
    have h100 : (100:ℤ) ≤ ⌊q⌋ := Int.le_floor.mpr (by exact_mod_cast h1.le)
    rw [if_neg (by omega : ¬ ⌊q⌋ = 0)]
    omega
  · intro q h1
    have hqpos : (0:ℚ) < q := by
      have := hundred_lt_jsExpCutoff
      linarith
    have h0 : q ≠ 0 := ne_of_gt hqpos
    have habs : |q| = q := abs_of_pos hqpos
    have hp := jsParseIntOfNum_exponential q h0 (Or.inl (by rw [habs]; exact h1))
    rw [if_neg (not_lt.mpr hqpos.le), habs, one_mul] at hp
    obtain ⟨hld1, hld9⟩ := leadingDigit_bounds q hqpos
    refine ⟨?_, hld1, hld9⟩
    simp only [effectiveLimit, jsParseIntOfValue, hp]
    rw [if_neg (by omega : ¬ leadingDigit q = 0)]
    omega
  · intro q lim thr hq
    simp [searchTools, hq]

/-- Witness for the amended C3 at concrete inputs: a digit string, a
non-digit string, -5, -1/2, the exponential-range -10^-7, 1000, the
exponential cutoff 10^21 itself, and the limit actually handed to the
search for input 1000. -/
theorem limit_clamped_amended_witness :
    (1 ≤ effectiveLimit (JSValue.str "7") ∧ effectiveLimit (JSValue.str "7") ≤ 100)
    ∧ effectiveLimit (JSValue.str "abc") = 10
    ∧ effectiveLimit (JSValue.num (mkRat (-5) 1)) = 1
    ∧ effectiveLimit (JSValue.num (mkRat (-1) 2)) = 10
    ∧ effectiveLimit (JSValue.num (mkRat (-1) 10000000)) = 1
    ∧ effectiveLimit (JSValue.num (mkRat 1000 1)) = 100
    ∧ (effectiveLimit (JSValue.num jsExpCutoff) = leadingDigit jsExpCutoff
        ∧ 1 ≤ leadingDigit jsExpCutoff ∧ leadingDigit jsExpCutoff ≤ 9)
    ∧ searchTools true (fun _ l _ => Except.error (toString l))
        ⟨JSValue.str "q", JSValue.num (mkRat 1000 1), JSValue.undefined⟩ =
      SearchResponse.failure 500 "Failed to search tools"
        (some (toString (effectiveLimit (JSValue.num (mkRat 1000 1))))) :=
  ⟨limit_clamped_amended.1 _,
   limit_clamped_amended.2.1 "abc" rfl,
   limit_clamped_amended.2.2.2.2.2.2.1 _ (by decide),
   limit_clamped_amended.2.2.2.2.2.2.2.1 _ (by decide) (by decide),
   limit_clamped_amended.2.2.2.2.2.2.2.2.1 _ (by decide) (by decide),
   limit_clamped_amended.2.2.2.2.2.2.2.2.2.1 _ (by decide) (by decide),
   limit_clamped_amended.2.2.2.2.2.2.2.2.2.2.1 jsExpCutoff (le_refl _),
   limit_clamped_amended.2.2.2.2.2.2.2.2.2.2.2 "q" _ _ (by decide)⟩

/-- C4: with smart routing disabled, a search with a valid string query is
answered by the 503 feature-disabled failure, and the search response does
not depend on the similarity-search function (it is never invoked); the
call handler's response never depends on the smart-routing flag at all. -/
theorem feature_gate_search_only :
    (∀ (f : SearchFn) (body : SearchRequestBody) (q : String),
        body.query = JSValue.str q → q ≠ "" →
        searchTools false f body =
          SearchResponse.failure 503 smartRoutingDisabledMsg none)
    ∧ (∀ (f g : SearchFn) (body : SearchRequestBody),
        searchTools false f body = searchTools false g body)
    ∧ (∀ (e₁ e₂ : Bool) (h : CallHandler) (ctx : CallContext)
        (body : CallRequestBody), callTool e₁ h ctx body = callTool e₂ h ctx body) := by
  refine ⟨?_, ?_, ?_⟩
  · intro f body q hq hne
    simp [searchTools, hq, hne]
  · intro f g body
    obtain ⟨bq, bl, bt⟩ := body
    cases bq <;> simp [searchTools]
  · intro e₁ e₂ h ctx body
    rfl

/-- Witness for C4: the concrete valid query "sync files" with the gate
off yields the 503 failure. -/
theorem feature_gate_search_only_witness :
    searchTools false (fun _ _ _ => Except.ok [])
      ⟨JSValue.str "sync files", JSValue.undefined, JSValue.undefined⟩ =
      SearchResponse.failure 503 smartRoutingDisabledMsg none :=
  feature_gate_search_only.1 _ _ "sync files" rfl (by decide)

/-- C5: a search request whose query is missing or not a string is
answered by the 400 validation failure and the response does not depend on
the similarity-search function; a call request whose toolName is falsy —
in particular missing — is answered by the 400 validation failure and the
response does not depend on the dispatch handler.  No downstream
collaborator can therefore be invoked and no state can change. -/
theorem validation_before_downstream :
    (∀ (enabled : Bool) (f g : SearchFn) (body : SearchRequestBody),
        (truthy body.query && isStringValue body.query) = false →
        searchTools enabled f body = SearchResponse.failure 400 queryRequiredMsg none
        ∧ searchTools enabled f body = searchTools enabled g body)
    ∧ (∀ (enabled : Bool) (h₁ h₂ : CallHandler) (ctx : CallContext)
        (body : CallRequestBody),
        truthy body.toolName = false →
        callTool enabled h₁ ctx body =
          CallResponse.failure 400 "toolName is required" none
        ∧ callTool enabled h₁ ctx body = callTool enabled h₂ ctx body) := by
  constructor
  · intro enabled f g body hbad
    obtain ⟨bq, bl, bt⟩ := body
    cases bq <;> simp_all [searchTools, truthy, isStringValue]
  · intro enabled h₁ h₂ ctx body hbad
    simp [callTool, hbad]

/-- Witness for C5: a search body with the query field absent and a call
body with the toolName field absent are both rejected with 400. -/
theorem validation_before_downstream_witness :
    (searchTools true (fun _ _ _ => Except.ok [])
        ⟨JSValue.undefined, JSValue.undefined, JSValue.undefined⟩ =
        SearchResponse.failure 400 queryRequiredMsg none)
    ∧ (callTool true (fun _ _ _ _ _ => Except.ok ⟨none, none⟩)
        ⟨none, JSValue.undefined⟩ ⟨JSValue.undefined, JSValue.undefined⟩ =
        CallResponse.failure 400 "toolName is required" none) :=
  ⟨(validation_before_downstream.1 true (fun _ _ _ => Except.ok [])
      (fun _ _ _ => Except.ok [])
      ⟨JSValue.undefined, JSValue.undefined, JSValue.undefined⟩ rfl).1,
   (validation_before_downstream.2 true (fun _ _ _ _ _ => Except.ok ⟨none, none⟩)
      (fun _ _ _ _ _ => Except.ok ⟨none, none⟩)
      ⟨none, JSValue.undefined⟩ ⟨JSValue.undefined, JSValue.undefined⟩ rfl).1⟩

/-- C6: grouping is lossless — over all candidate lists, the grouped tools
are a permutation of the sorted flat list's grouped tools, the group sizes
sum to the flat list's length, every tool sits in a group keyed by its own
serverName, the group keys are pairwise distinct, and every candidate is
found inside the group keyed by its serverName. -/
theorem grouping_lossless :
    ∀ l : List SearchResult,
      (((groupServers (sortCandidates l)).map (fun g => g.tools)).flatten).Perm
        ((sortCandidates l).map toGroupedTool)
      ∧ ((groupServers (sortCandidates l)).map (fun g => g.tools.length)).sum
          = (sortCandidates l).length
      ∧ (∀ g ∈ groupServers (sortCandidates l), ∀ t ∈ g.tools,
          t.serverName = g.serverName)
      ∧ ((groupServers (sortCandidates l)).map (fun g => g.serverName)).Nodup
      ∧ (∀ r ∈ sortCandidates l, ∃ g ∈ groupServers (sortCandidates l),
          g.serverName = r.serverName ∧ toGroupedTool r ∈ g.tools) := by
  intro l
  set m := sortCandidates l with hm
  have hperm := flatten_groupServers m
  have hkeyed : ∀ g ∈ groupServers m, ∀ t ∈ g.tools, t.serverName = g.serverName := by
    intro g hg t ht
    obtain ⟨rg, hrg, hfin⟩ := mem_groupServers.mp hg
    subst hfin
    simp only [finalizeGroup, List.mem_insertionSort] at ht
    exact keyed_groupByServer m rg hrg t ht
  refine ⟨hperm, ?_, hkeyed, ?_, ?_⟩
  · have hlen := hperm.length_eq
    rw [List.length_flatten, List.map_map, List.length_map] at hlen
    simpa [Function.comp] using hlen
  · have h1 : ((groupServers m).map (fun g => g.serverName)).Perm
        ((((groupByServer m).map finalizeGroup)).map (fun g => g.serverName)) :=
      (List.perm_insertionSort _ _).map _
    have h2 : (((groupByServer m).map finalizeGroup)).map (fun g => g.serverName)
        = (groupByServer m).map RawGroup.serverName := by
      simp [List.map_map, finalizeGroup, Function.comp]
    rw [h2] at h1
    exact h1.nodup_iff.mpr (nodup_keys_groupByServer m)
  · intro r hr
    have hmem : toGroupedTool r ∈ (((groupServers m).map (fun g => g.tools)).flatten) :=
      hperm.mem_iff.mpr (List.mem_map_of_mem _ hr)
    rw [List.mem_flatten] at hmem
    obtain ⟨tl, htl, htmem⟩ := hmem
    rw [List.mem_map] at htl
    obtain ⟨g, hg, rfl⟩ := htl
    refine ⟨g, hg, ?_, htmem⟩
    have := hkeyed g hg _ htmem
    simpa [toGroupedTool] using this.symm

/-- Witness for C6: on the one-candidate list the group sizes sum to the
flat length, and the candidate is found in the group keyed "A". -/
theorem grouping_lossless_witness :
    ((groupServers (sortCandidates [⟨"A", "x", "", "", 1⟩])).map
        (fun g => g.tools.length)).sum = (sortCandidates [⟨"A", "x", "", "", 1⟩]).length
    ∧ ∃ g ∈ groupServers (sortCandidates [⟨"A", "x", "", "", 1⟩]),
        g.serverName = "A" ∧ toGroupedTool ⟨"A", "x", "", "", 1⟩ ∈ g.tools :=
  ⟨(grouping_lossless [⟨"A", "x", "", "", 1⟩]).2.1,
   (grouping_lossless [⟨"A", "x", "", "", 1⟩]).2.2.2.2 ⟨"A", "x", "", "", 1⟩
     (List.mem_singleton_self _)⟩

/-- C7: the ordering invariants — the flat list is sorted by similarity
descending; within every group the tools are sorted by similarity
descending, `maxSimilarity` bounds every tool's similarity and is attained
by one of them, and `avgSimilarity` is the arithmetic mean of the group's
similarities; and the groups are sorted by `maxSimilarity` descending. -/
theorem ordering_invariants :
    ∀ l : List SearchResult,
      List.Sorted (fun a b : SearchResult => b.similarity ≤ a.similarity)
        (sortCandidates l)
      ∧ (∀ g ∈ groupServers (sortCandidates l),
          List.Sorted (fun a b : GroupedTool => b.similarity ≤ a.similarity) g.tools
          ∧ (∀ t ∈ g.tools, t.similarity ≤ g.maxSimilarity)
          ∧ g.maxSimilarity ∈ g.tools.map (fun t => t.similarity)
          ∧ g.avgSimilarity
              = (g.tools.map (fun t => t.similarity)).sum / (g.tools.length : ℚ))
      ∧ List.Sorted (fun a b : ServerGroup => b.maxSimilarity ≤ a.maxSimilarity)
          (groupServers (sortCandidates l)) := by
  intro l
  set m := sortCandidates l with hm
  refine ⟨List.sorted_insertionSort _ _, ?_, List.sorted_insertionSort _ _⟩
  intro g hg
  obtain ⟨rg, hrg, hfin⟩ := mem_groupServers.mp hg
  have hne : rg.tools ≠ [] := nonempty_groupByServer m rg hrg
  have htools : g.tools = List.insertionSort
      (fun a b : GroupedTool => b.similarity ≤ a.similarity) rg.tools := by
    rw [← hfin]; rfl
  have hmax : g.maxSimilarity = jsMaxList (rg.tools.map (fun t => t.similarity)) := by
    rw [← hfin]; rfl
  have havg : g.avgSimilarity = sumSimilarities rg.tools / (rg.tools.length : ℚ) := by
    rw [← hfin]; rfl
  have hpermtools : g.tools.Perm rg.tools := by
    rw [htools]; exact List.perm_insertionSort _ _
  refine ⟨?_, ?_, ?_, ?_⟩
  · rw [htools]; exact List.sorted_insertionSort _ _
  · intro t ht
    rw [hmax]
    exact le_jsMaxList _ _ (List.mem_map_of_mem _ (hpermtools.subset ht))
  · rw [hmax]
    have := jsMaxList_mem (rg.tools.map (fun t => t.similarity))
      (by simpa using hne)
    exact ((hpermtools.map _).mem_iff).mpr this
  · rw [havg, sumSimilarities_eq, (hpermtools.map _).sum_eq, hpermtools.length_eq]

/-- Witness for C7: the flat sortedness on the one-candidate list, and the
per-group invariants at its single group. -/
theorem ordering_invariants_witness :
    List.Sorted (fun a b : SearchResult => b.similarity ≤ a.similarity)
      (sortCandidates [⟨"A", "x", "", "", 1⟩])
    ∧ ∃ g ∈ groupServers (sortCandidates [⟨"A", "x", "", "", 1⟩]),
        List.Sorted (fun a b : GroupedTool => b.similarity ≤ a.similarity) g.tools
        ∧ g.maxSimilarity ∈ g.tools.map (fun t => t.similarity) :=
  ⟨(ordering_invariants [⟨"A", "x", "", "", 1⟩]).1,
   ⟨finalizeGroup ⟨"A", [toGroupedTool ⟨"A", "x", "", "", 1⟩]⟩,
     List.mem_singleton_self _,
     ((ordering_invariants [⟨"A", "x", "", "", 1⟩]).2.1 _
       (List.mem_singleton_self _)).1,
     ((ordering_invariants [⟨"A", "x", "", "", 1⟩]).2.1 _
       (List.mem_singleton_self _)).2.2.1⟩⟩

/-- C8: on the concrete candidate set A/x/0.9, B/y/0.95, A/z/0.8 with
threshold 0.5, the engine produces the flat order y, x, z; the groups B
(max 0.95, avg 0.95) then A (max 0.9, avg 0.85); metadata with
totalResults 3, serverCount 2 and the non-empty guideline and nextSteps
texts; and the full handler assembles exactly this response. -/
theorem ranking_concrete_scenario :
    sortCandidates c8Candidates =
      [⟨"B", "y", "", "", 0.95⟩, ⟨"A", "x", "", "", 0.9⟩, ⟨"A", "z", "", "", 0.8⟩]
    ∧ groupServers (sortCandidates c8Candidates) =
      [⟨"B", [⟨"y", "", "", 0.95, "B"⟩], 0.95, 0.95⟩,
       ⟨"A", [⟨"x", "", "", 0.9, "A"⟩, ⟨"z", "", "", 0.8, "A"⟩], 0.9, 0.85⟩]
    ∧ mkMetadata "files" 0.5 (sortCandidates c8Candidates)
        (groupServers (sortCandidates c8Candidates)) =
      ⟨"files", 0.5, 3, 2, guidelineFound, nextStepsFound⟩
    ∧ searchTools true (fun _ _ _ => Except.ok c8Candidates)
        ⟨JSValue.str "files", JSValue.undefined, JSValue.num 0.5⟩ =
      SearchResponse.ok (sortCandidates c8Candidates)
        (groupServers (sortCandidates c8Candidates))
        ⟨"files", 0.5, 3, 2, guidelineFound, nextStepsFound⟩ := by
  have h1 : sortCandidates c8Candidates =
      [⟨"B", "y", "", "", 0.95⟩, ⟨"A", "x", "", "", 0.9⟩, ⟨"A", "z", "", "", 0.8⟩] := by
    norm_num [c8Candidates, sortCandidates, List.insertionSort, List.orderedInsert]
  have h2 : groupServers (sortCandidates c8Candidates) =
      [⟨"B", [⟨"y", "", "", 0.95, "B"⟩], 0.95, 0.95⟩,
       ⟨"A", [⟨"x", "", "", 0.9, "A"⟩, ⟨"z", "", "", 0.8, "A"⟩], 0.9, 0.85⟩] := by
    rw [h1]
    norm_num [groupServers, groupByServer, addToGroups, finalizeGroup, toGroupedTool,
      jsMaxList, sumSimilarities, List.insertionSort, List.orderedInsert]
  have h3 : mkMetadata "files" 0.5 (sortCandidates c8Candidates)
      (groupServers (sortCandidates c8Candidates)) =
      ⟨"files", 0.5, 3, 2, guidelineFound, nextStepsFound⟩ := by
    rw [h2, h1]
    norm_num [mkMetadata]
  refine ⟨h1, h2, h3, ?_⟩
  have ht : effectiveThreshold "files" (JSValue.num 0.5) = 0.5 := by
    simp only [effectiveThreshold]
    norm_num
  simp only [searchTools]
  rw [if_neg (by decide : ¬ ("files" = ""))]
  simp only [ht, Bool.not_true, if_neg]
  rw [← h3]
  simp [mkMetadata]

/-- C9: the sort-group-aggregate pipeline is deterministic — two runs on
equal input candidate sequences produce equal sorted tools, equal group
lists, and equal metadata. -/
theorem ranking_deterministic :
    ∀ (l₁ l₂ : List SearchResult), l₁ = l₂ →
      sortCandidates l₁ = sortCandidates l₂
      ∧ groupServers (sortCandidates l₁) = groupServers (sortCandidates l₂)
      ∧ ∀ (q : String) (t : ℚ),
          mkMetadata q t (sortCandidates l₁) (groupServers (sortCandidates l₁)) =
          mkMetadata q t (sortCandidates l₂) (groupServers (sortCandidates l₂)) := by
  intro l₁ l₂ h
  subst h
  exact ⟨rfl, rfl, fun _ _ => rfl⟩

/-- Witness for C9: the two runs agree on a concrete one-candidate list. -/
theorem ranking_deterministic_witness :
    sortCandidates [⟨"S", "t", "", "", 1⟩] = sortCandidates [⟨"S", "t", "", "", 1⟩]
    ∧ groupServers (sortCandidates [⟨"S", "t", "", "", 1⟩]) =
        groupServers (sortCandidates [⟨"S", "t", "", "", 1⟩])
    ∧ ∀ (q : String) (t : ℚ),
        mkMetadata q t (sortCandidates [⟨"S", "t", "", "", 1⟩])
          (groupServers (sortCandidates [⟨"S", "t", "", "", 1⟩])) =
        mkMetadata q t (sortCandidates [⟨"S", "t", "", "", 1⟩])
          (groupServers (sortCandidates [⟨"S", "t", "", "", 1⟩])) :=
  ranking_deterministic _ _ rfl

/-- C10: a search request with a missing or non-string query is answered
by the 400 validation failure whatever the smart-routing flag — never by
the 503 feature-disabled failure — and the response is the same with the
gate on or off, so the configuration is not consulted for such requests:
in the source the query check sits before the gate check. -/
theorem validation_precedes_gate :
    ∀ (enabled : Bool) (f : SearchFn) (body : SearchRequestBody),
      (truthy body.query && isStringValue body.query) = false →
      searchTools enabled f body = SearchResponse.failure 400 queryRequiredMsg none
      ∧ searchTools true f body = searchTools false f body := by
  intro enabled f body hbad
  obtain ⟨bq, bl, bt⟩ := body
  cases bq <;> simp_all [searchTools, truthy, isStringValue]

/-- Witness for C10: a numeric (non-string) query with the gate off is
answered 400, and the gate-on and gate-off responses coincide. -/
theorem validation_precedes_gate_witness :
    searchTools false (fun _ _ _ => Except.ok [])
      ⟨JSValue.num 3, JSValue.undefined, JSValue.undefined⟩ =
      SearchResponse.failure 400 queryRequiredMsg none
    ∧ searchTools true (fun _ _ _ => Except.ok [])
        ⟨JSValue.num 3, JSValue.undefined, JSValue.undefined⟩ =
      searchTools false (fun _ _ _ => Except.ok [])
        ⟨JSValue.num 3, JSValue.undefined, JSValue.undefined⟩ :=
  ⟨(validation_precedes_gate false (fun _ _ _ => Except.ok [])
      ⟨JSValue.num 3, JSValue.undefined, JSValue.undefined⟩ rfl).1,
   (validation_precedes_gate true (fun _ _ _ => Except.ok [])
      ⟨JSValue.num 3, JSValue.undefined, JSValue.undefined⟩ rfl).2⟩
